import Mathlib

/-!
Verification of the iterative self-calibration / coaddition pipeline
(`calibrate_zodi_time.py`, `spline_fit_calibration.py`).

Shallow embedding conventions:
* numpy float arrays are embedded as `List ℚ`; healpix-sized buffers
  (`numerator`, `denominator`, map data) as total functions `Nat → ℚ`;
* the scipy Nelder–Mead minimizer (`fit_to_zodi`) is an external
  collaborator and is abstracted as a function parameter;
* an unguarded division whose divisor is zero is modelled by `Option`
  (`cdiv`); the guarded `np.divide(..., where=d != 0, out=zeros)` calls
  of the source are embedded as an explicit zero-fallback `if`.
-/

/-- A pixel-indexed buffer (a dense healpix-length numpy array). -/
abbrev Buf := Nat → ℚ

def zeroBuf : Buf := fun _ => 0

/-- Point update of a buffer (one numpy scatter store). -/
def upd (f : Buf) (i : Nat) (v : ℚ) : Buf := fun j => if j = i then v else f j

/-- `np.mean` of a 1-d array (`sum / len`; over ℚ the empty case gives `0/0 = 0`). -/
def qmean (l : List ℚ) : ℚ := l.sum / (l.length : ℚ)

/-- `IterativeFitter.chi_sq` (calibrate_zodi_time.py lines 359-364):
`residual = x_data - (y_data * gain + offset)`,
`weighted_residual = residual / np.mean(sigma) ** 2`,
`np.sum(weighted_residual ** 2) / len(x_data)` if `x_data` nonempty else `0`. -/
def chi_sq (gain offset : ℚ) (x_data y_data sigma : List ℚ) : ℚ :=
  let residual := List.zipWith (fun x y => x - (y * gain + offset)) x_data y_data
  let weighted_residual := residual.map (fun r => r / qmean sigma ^ 2)
  if 0 < x_data.length then (weighted_residual.map (fun w => w ^ 2)).sum / (x_data.length : ℚ)
  else 0

/-- The cost function exactly as the specification words it:
each residual divided by `mean(uncertainties)` (not its square) before
squaring and averaging.  Kept only to compare with `chi_sq`. -/
def chi_sq_claimed (gain offset : ℚ) (x_data y_data sigma : List ℚ) : ℚ :=
  (List.zipWith (fun x y => ((x - (y * gain + offset)) / qmean sigma) ^ 2) x_data y_data).sum
    / (x_data.length : ℚ)

/-- `IterativeFitter.adjust_data` (lines 390-393):
`residual = ((data - offset) / gain) - zodi`, `new_data = data - gain * residual`,
elementwise over numpy arrays of equal length. -/
def adjust_data (gain offset : ℚ) (data zodi : List ℚ) : List ℚ :=
  List.zipWith (fun d z => d - gain * ((d - offset) / gain - z)) data zodi

/-- The refinement loop body of `IterativeFitter.iterate_fit` (lines 374-387).
`minz` abstracts `fit_to_zodi` (the scipy Nelder-Mead call); the `Option (ℚ × ℚ)`
argument carries the Python local variables `gain, offset` (`none` = not yet
bound); the `Nat` in the result counts invocations of the minimizer. -/
def fit_rounds (minz : List ℚ → List ℚ → List ℚ → ℚ × ℚ) (zodi uncs : List ℚ) :
    Nat → List ℚ → Option (ℚ × ℚ) → Option (ℚ × ℚ) × Nat
  | 0, _, last => (last, 0)
  | n + 1, data, _ =>
      let go := minz data zodi uncs
      let r := fit_rounds minz zodi uncs n (adjust_data go.1 go.2 data zodi) (some go)
      (r.1, r.2 + 1)

/-- `IterativeFitter.iterate_fit` (lines 374-387): if the (already masked) raw
data is nonempty run `n` refinement rounds, otherwise return `gain = offset = 0.0`
directly.  The second component counts minimizer invocations. -/
def iterate_fit (minz : List ℚ → List ℚ → List ℚ → ℚ × ℚ)
    (zodi raw uncs : List ℚ) (n : Nat) : Option (ℚ × ℚ) × Nat :=
  if 0 < raw.length then fit_rounds minz zodi uncs n raw none
  else (some (0, 0), 0)

/-- `Coadder.normalize` (lines 321-323): per pixel,
`np.divide(numerator, denominator, where=denominator != 0, out=zeros)` and
`np.divide(1, denominator, where=denominator != 0, out=zeros)`. -/
def normalize_map (num den : Buf) : Buf × Buf :=
  (fun p => if den p = 0 then 0 else num p / den p,
   fun p => if den p = 0 then 0 else 1 / den p)

-- ---------------------------------------------------------------------------
-- Helper lemmas about lists
-- ---------------------------------------------------------------------------

theorem map_zipWith_fuse {α β γ δ : Type} (g : γ → δ) (f : α → β → γ) :
    ∀ (as : List α) (bs : List β),
      (List.zipWith f as bs).map g = List.zipWith (fun a b => g (f a b)) as bs := by
  intro as
  induction as with
  | nil => intro bs; simp
  | cons a t ih =>
      intro bs
      cases bs with
      | nil => simp
      | cons b bt => simp [ih bt]

-- ---------------------------------------------------------------------------
-- C2: the fitter's cost function
-- ---------------------------------------------------------------------------

/-- C2 counterexample: the claim says each residual is divided by
`mean(uncertainties)` before squaring; the code divides by
`np.mean(sigma) ** 2`.  At `gain = 1, offset = 0, raw = [4], template = [0],
uncertainties = [2]` the code yields `1` while the claimed formula yields `4`. -/
theorem c2_counterexample :
    chi_sq 1 0 [4] [0] [2] = 1 ∧ chi_sq_claimed 1 0 [4] [0] [2] = 4 ∧
      chi_sq 1 0 [4] [0] [2] ≠ chi_sq_claimed 1 0 [4] [0] [2] := by
  refine ⟨by norm_num [chi_sq, qmean], by norm_num [chi_sq_claimed, qmean], ?_⟩
  norm_num [chi_sq, chi_sq_claimed, qmean]

/-- C2 (amended): for every non-empty sample set the cost equals the mean over
samples of the square of `raw − (template·gain + offset)` divided by the
*square* of the mean of the uncertainty array. -/
theorem c2_amended (gain offset : ℚ) (x_data y_data sigma : List ℚ)
    (hx : x_data ≠ []) :
    chi_sq gain offset x_data y_data sigma
      = (List.zipWith
            (fun x y => ((x - (y * gain + offset)) / qmean sigma ^ 2) ^ 2) x_data y_data).sum
          / (x_data.length : ℚ) := by
  have hlen : 0 < x_data.length := List.length_pos.mpr hx
  unfold chi_sq
  rw [if_pos hlen, map_zipWith_fuse, map_zipWith_fuse]

/-- Witness for `c2_amended` at a concrete nonempty input. -/
theorem c2_amended_witness :
    chi_sq 1 0 [4] [0] [2]
      = (List.zipWith
            (fun x y => ((x - (y * 1 + 0)) / qmean [2] ^ 2) ^ 2) [4] [0]).sum
          / (([4] : List ℚ).length : ℚ) :=
  c2_amended 1 0 [4] [0] [2] (by decide)

-- ---------------------------------------------------------------------------
-- C4: normalization
-- ---------------------------------------------------------------------------

/-- C4: for every pixel after `Coadder.normalize`, a zero accumulated
denominator yields map value and uncertainty both exactly `0`; a nonzero
denominator yields `numerator/denominator` and `1/denominator` exactly. -/
theorem c4_normalize_cases (num den : Buf) (p : Nat) :
    (den p = 0 → (normalize_map num den).1 p = 0 ∧ (normalize_map num den).2 p = 0) ∧
    (den p ≠ 0 →
      (normalize_map num den).1 p = num p / den p ∧ (normalize_map num den).2 p = 1 / den p) := by
  constructor
  · intro h; simp [normalize_map, h]
  · intro h; simp [normalize_map, h]

/-- Witness for `c4_normalize_cases`: both branches at concrete buffers. -/
theorem c4_witness :
    ((fun _ : Nat => (0 : ℚ)) 5 = 0 →
      (normalize_map (fun _ => 3) (fun _ => 0)).1 5 = 0 ∧
        (normalize_map (fun _ => 3) (fun _ => 0)).2 5 = 0) ∧
    ((fun _ : Nat => (2 : ℚ)) 5 ≠ 0 →
      (normalize_map (fun _ => 3) (fun _ => 2)).1 5 = (fun _ : Nat => (3 : ℚ)) 5 / (fun _ : Nat => (2 : ℚ)) 5 ∧
        (normalize_map (fun _ => 3) (fun _ => 2)).2 5 = 1 / (fun _ : Nat => (2 : ℚ)) 5) :=
  ⟨(c4_normalize_cases (fun _ => 3) (fun _ => 0) 5).1,
   (c4_normalize_cases (fun _ => 3) (fun _ => 2) 5).2⟩

-- ---------------------------------------------------------------------------
-- C6: empty sample set
-- ---------------------------------------------------------------------------

/-- C6: for every minimizer, template, uncertainty array and round count, the
fitter on an empty (post-mask) sample set returns exactly `(0.0, 0.0)` with
zero minimizer invocations. -/
theorem c6_empty_fit (minz : List ℚ → List ℚ → List ℚ → ℚ × ℚ)
    (zodi uncs : List ℚ) (n : Nat) :
    iterate_fit minz zodi [] uncs n = (some (0, 0), 0) := by
  simp [iterate_fit]

-- ---------------------------------------------------------------------------
-- C10: the refinement adjustment is independent of the raw data
-- ---------------------------------------------------------------------------

/-- C10: for every nonzero gain `g`, offset `o`, and equal-length data and
template arrays, one `adjust_data` round returns exactly `g·t + o` at every
index — `d − g·((d − o)/g − t) = g·t + o` — so the adjusted working data is
independent of the raw data, and any refinement round after the first fits
data already equal to the template scaled by the previous round's parameters. -/
theorem c10_adjust_identity (g o : ℚ) (data zodi : List ℚ)
    (hg : g ≠ 0) (hlen : data.length = zodi.length) :
    adjust_data g o data zodi = zodi.map (fun t => g * t + o) := by
  induction data generalizing zodi with
  | nil =>
      cases zodi with
      | nil => rfl
      | cons z zt => simp at hlen
  | cons d dt ih =>
      cases zodi with
      | nil => simp at hlen
      | cons z zt =>
          simp only [List.length_cons, Nat.succ_inj] at hlen
          have hd : d - g * ((d - o) / g - z) = g * z + o := by
            field_simp
            ring
          simp only [adjust_data, List.zipWith_cons_cons, List.map_cons] at ih ⊢
          rw [hd, ih zt hlen]

/-- Witness for `c10_adjust_identity` at `g = 2, o = 3, d = [5], t = [7]`. -/
theorem c10_witness :
    adjust_data 2 3 [5] [7] = ([7] : List ℚ).map (fun t => 2 * t + 3) :=
  c10_adjust_identity 2 3 [5] [7] (by norm_num) (by decide)

-- ---------------------------------------------------------------------------
-- Positional masking (the `entries_to_mask` list comprehensions)
-- ---------------------------------------------------------------------------

/-- The masking idiom of `fit_initial_orbit` / `fit_adjusted_orbit` / `add_file`:
`entries_to_mask = [i for i in range(len(pixel_inds)) if pixel_inds[i] in excluded]`
followed by `[xs[i] for i in range(len(xs)) if i not in entries_to_mask]`.
`masked p = true` means pixel `p` lies in the moon-stripe or galaxy exclusion set.
The value list and the pixel-index list are columns of one csv file, hence of
equal length. -/
def maskedList {α : Type} (masked : Nat → Bool) : List α → List Nat → List α
  | v :: vs, p :: ps =>
      if masked p then maskedList masked vs ps else v :: maskedList masked vs ps
  | _, _ => []

theorem maskedList_eq_filter_zip {α : Type} (masked : Nat → Bool) :
    ∀ (vs : List α) (ps : List Nat), vs.length = ps.length →
      maskedList masked vs ps
        = ((vs.zip ps).filter (fun vp => !masked vp.2)).map Prod.fst := by
  intro vs
  induction vs with
  | nil =>
      intro ps h
      cases ps with
      | nil => simp [maskedList]
      | cons p pt => simp at h
  | cons v vt ih =>
      intro ps h
      cases ps with
      | nil => simp at h
      | cons p pt =>
          simp only [List.length_cons, Nat.succ_inj] at h
          by_cases hm : masked p
          · simp [maskedList, hm, ih pt h]
          · simp [maskedList, hm, ih pt h]

theorem maskedList_self (masked : Nat → Bool) :
    ∀ ps : List Nat, maskedList masked ps ps = ps.filter (fun p => !masked p) := by
  intro ps
  induction ps with
  | nil => simp [maskedList]
  | cons p pt ih =>
      by_cases hm : masked p
      · simp [maskedList, hm, ih]
      · simp [maskedList, hm, ih]

theorem maskedList_length {α : Type} (masked : Nat → Bool) :
    ∀ (vs : List α) (ps : List Nat), vs.length = ps.length →
      (maskedList masked vs ps).length = (ps.filter (fun p => !masked p)).length := by
  intro vs
  induction vs with
  | nil =>
      intro ps h
      cases ps with
      | nil => simp [maskedList]
      | cons p pt => simp at h
  | cons v vt ih =>
      intro ps h
      cases ps with
      | nil => simp at h
      | cons p pt =>
          simp only [List.length_cons, Nat.succ_inj] at h
          by_cases hm : masked p
          · simp [maskedList, hm, ih pt h]
          · simp [maskedList, hm, ih pt h]

-- ---------------------------------------------------------------------------
-- Segment data and the per-orbit fitting phase
-- ---------------------------------------------------------------------------

/-- One orbit's loaded sample table (`load_orbit_data`) together with the
per-pixel reference template values delivered by `load_zodi_orbit`; all four
columns are aligned by sample position. -/
structure OrbitData where
  data : List ℚ
  uncs : List ℚ
  pix : List Nat
  zodi : List ℚ

/-- `Coadder.fit_initial_orbit` (lines 120-155), stripped of plotting:
mask the raw data, hand it to the fitter (`fitres` abstracts
`IterativeFitter.iterate_fit`), and store gain/offset at slot `k`.
Returns `(new gains, new offsets, data handed to the fitter)`. -/
def fit_initial_orbit (fitres : List ℚ → ℚ × ℚ) (gains offsets : List ℚ) (k : Nat)
    (ob : OrbitData) (masked : Nat → Bool) : List ℚ × List ℚ × List ℚ :=
  let orbit_data_masked := maskedList masked ob.data ob.pix
  let go := fitres orbit_data_masked
  (gains.set k go.1, offsets.set k go.2, orbit_data_masked)

/-- `Coadder.fit_adjusted_orbit` (lines 157-214), stripped of plotting:
`prev_itermap = fsm_prev.mapdata[pixel_inds]`, masked, times the *current*
entry `gains[k]` (still the previous iteration's value — it is overwritten
only afterwards), subtracted from the masked raw data before fitting.
Returns `(new gains, new offsets, data handed to the fitter)`. -/
def fit_adjusted_orbit (fitres : List ℚ → ℚ × ℚ) (prevMap : Buf)
    (gains offsets : List ℚ) (k : Nat) (ob : OrbitData) (masked : Nat → Bool) :
    List ℚ × List ℚ × List ℚ :=
  let orbit_data_masked := maskedList masked ob.data ob.pix
  let prev_itermap := ob.pix.map prevMap
  let prev_itermap_masked := maskedList masked prev_itermap ob.pix
  let t_gal := prev_itermap_masked.map (fun x => x * gains.getD k 0)
  let orbit_data_adj := List.zipWith (fun a b => a - b) orbit_data_masked t_gal
  let go := fitres orbit_data_adj
  (gains.set k go.1, offsets.set k go.2, orbit_data_adj)

theorem masked_sub_gather (masked : Nat → Bool) (f : Nat → ℚ) (c : ℚ) :
    ∀ (d : List ℚ) (q : List Nat), d.length = q.length →
      List.zipWith (fun a b => a - b) (maskedList masked d q)
          ((maskedList masked (q.map f) q).map (fun x => x * c))
        = ((d.zip q).filter (fun vp => !masked vp.2)).map (fun vp => vp.1 - f vp.2 * c) := by
  intro d
  induction d with
  | nil =>
      intro q h
      cases q with
      | nil => simp [maskedList]
      | cons p pt => simp at h
  | cons v vt ih =>
      intro q h
      cases q with
      | nil => simp at h
      | cons p pt =>
          simp only [List.length_cons, Nat.succ_inj] at h
          by_cases hm : masked p
          · simp [maskedList, hm, ih pt h]
          · simp [maskedList, hm, ih pt h]

/-- C5: on outer iterations after the first, the data handed to the fitter is
the masked raw data minus (previous map value at the sample's pixel) × (the
segment's gain still stored from the previous iteration); on iteration 0 the
masked raw data is fitted directly. -/
theorem c5_fitter_input (fitres : List ℚ → ℚ × ℚ) (prevMap : Buf)
    (gains offsets : List ℚ) (k : Nat) (ob : OrbitData) (masked : Nat → Bool)
    (hlen : ob.data.length = ob.pix.length) :
    (fit_adjusted_orbit fitres prevMap gains offsets k ob masked).2.2
        = ((ob.data.zip ob.pix).filter (fun vp => !masked vp.2)).map
            (fun vp => vp.1 - prevMap vp.2 * gains.getD k 0)
    ∧ (fit_initial_orbit fitres gains offsets k ob masked).2.2
        = ((ob.data.zip ob.pix).filter (fun vp => !masked vp.2)).map Prod.fst := by
  constructor
  · simpa [fit_adjusted_orbit] using
      masked_sub_gather masked prevMap (gains.getD k 0) ob.data ob.pix hlen
  · simp [fit_initial_orbit, maskedList_eq_filter_zip masked ob.data ob.pix hlen]

/-- Witness for `c5_fitter_input`: pixel 1 is excluded, pixel 2 survives and is
adjusted by the previous map value `2` times the stored gain `3`. -/
theorem c5_witness :
    (fit_adjusted_orbit (fun _ => (0, 0)) (fun p => (p : ℚ)) [3] [0] 0
          ⟨[10, 20], [1, 1], [1, 2], [0, 0]⟩ (fun p => decide (p = 1))).2.2
        = ((([10, 20] : List ℚ).zip [1, 2]).filter (fun vp => !(decide (vp.2 = 1)))).map
            (fun vp => vp.1 - ((vp.2 : ℚ)) * ([3] : List ℚ).getD 0 0)
    ∧ (fit_initial_orbit (fun _ => (0, 0)) [3] [0] 0
          ⟨[10, 20], [1, 1], [1, 2], [0, 0]⟩ (fun p => decide (p = 1))).2.2
        = ((([10, 20] : List ℚ).zip [1, 2]).filter (fun vp => !(decide (vp.2 = 1)))).map Prod.fst :=
  c5_fitter_input (fun _ => (0, 0)) (fun p => (p : ℚ)) [3] [0] 0
    ⟨[10, 20], [1, 1], [1, 2], [0, 0]⟩ (fun p => decide (p = 1)) (by decide)

-- ---------------------------------------------------------------------------
-- C9: the Temporal Smoother's outlier rejection
-- ---------------------------------------------------------------------------

/-- `np.median`: middle element of the sorted array for odd length, mean of the
two middle elements for even length (`0` for the empty array, where numpy
produces `nan`). -/
def qmedian (l : List ℚ) : ℚ :=
  let s := l.mergeSort (fun a b => decide (a ≤ b))
  if l.length % 2 = 1 then s.getD (l.length / 2) 0
  else if l.length = 0 then 0
  else (s.getD (l.length / 2 - 1) 0 + s.getD (l.length / 2) 0) / 2

/-- Population variance (`ddof = 0`), as used by `scipy.stats.zscore`. -/
def qvar (l : List ℚ) : ℚ := qmean (l.map (fun x => (x - qmean l) ^ 2))

/-- `np.abs(stats.zscore(l))[i] > 1` for the entry `x = l[i]`, written without
square roots: for positive standard deviation
`|x - mean| / std > 1 ↔ (x - mean)² > variance`, and for zero standard
deviation scipy yields `nan` z-scores (`nan > 1` is false, entry kept) while
here every entry equals the mean so `(x - mean)² > 0` is false as well. -/
def zscore_sq_above (l : List ℚ) (x : ℚ) : Bool := decide (qvar l < (x - qmean l) ^ 2)

/-- `SplineFitter._clean_data` (spline_fit_calibration.py lines 162-194):
per-orbit median timestamps, then drop gain entries (and their timestamps)
with `|z| > 1`, and independently offset entries with `|z| > 1`.
Returns `(times_gain_masked, times_offset_masked, gains_masked, offsets_masked)`. -/
def clean_data (all_gains all_offsets : List ℚ) (all_mjd_vals : List (List ℚ)) :
    List ℚ × List ℚ × List ℚ × List ℚ :=
  let median_mjd_vals := all_mjd_vals.map qmedian
  let times_gain_masked :=
    ((median_mjd_vals.zip all_gains).filter
        (fun tg => !zscore_sq_above all_gains tg.2)).map Prod.fst
  let gains_masked := all_gains.filter (fun g => !zscore_sq_above all_gains g)
  let times_offset_masked :=
    ((median_mjd_vals.zip all_offsets).filter
        (fun t => !zscore_sq_above all_offsets t.2)).map Prod.fst
  let offsets_masked := all_offsets.filter (fun o => !zscore_sq_above all_offsets o)
  (times_gain_masked, times_offset_masked, gains_masked, offsets_masked)

/-- C9: the cleaning step keeps exactly the entries whose squared deviation
from the sequence mean is at most the sequence variance (i.e. `|z| ≤ 1`),
independently for gains and offsets; and for the gain sequence of nine `1.0`
values and one `50.0`, exactly the `50.0` entry is excluded. -/
theorem c9_outlier_rejection :
    (∀ (gains offsets : List ℚ) (mjd : List (List ℚ)),
        (clean_data gains offsets mjd).2.2.1
            = gains.filter (fun x => decide ((x - qmean gains) ^ 2 ≤ qvar gains)) ∧
        (clean_data gains offsets mjd).2.2.2
            = offsets.filter (fun x => decide ((x - qmean offsets) ^ 2 ≤ qvar offsets))) ∧
    (clean_data [1, 1, 1, 1, 1, 1, 1, 1, 1, 50] [] []).2.2.1
        = [1, 1, 1, 1, 1, 1, 1, 1, 1] := by
  constructor
  · intro gains offsets mjd
    constructor
    · apply List.filter_congr
      intro x _
      simp only [zscore_sq_above, ← decide_not, not_lt]
    · apply List.filter_congr
      intro x _
      simp only [zscore_sq_above, ← decide_not, not_lt]
  · simp only [clean_data]
    norm_num [zscore_sq_above, qvar, qmean, List.filter]

-- ---------------------------------------------------------------------------
-- numpy fancy-indexed accumulation (`buf[pixel_inds] += vals`)
-- ---------------------------------------------------------------------------

/-- Sequential scatter of (index, value) stores into a buffer; a later store
to the same index overwrites an earlier one, as numpy fancy-index assignment
does. -/
def scatter : Buf → List (Nat × ℚ) → Buf
  | buf, [] => buf
  | buf, iv :: rest => scatter (upd buf iv.1 iv.2) rest

/-- The value of the last store to index `p` in a scatter list, if any. -/
def lastPair : List (Nat × ℚ) → Nat → Option ℚ
  | [], _ => none
  | x :: t, p =>
      match lastPair t p with
      | some v => some v
      | none => if x.1 = p then some x.2 else none

theorem lastPair_cons (x : Nat × ℚ) (t : List (Nat × ℚ)) (p : Nat) :
    lastPair (x :: t) p
      = match lastPair t p with
        | some v => some v
        | none => if x.1 = p then some x.2 else none := rfl

/-- `buf[pix] += vals`: numpy first gathers `buf[pix]`, adds `vals`
elementwise, then scatters the results back (so duplicate indices do not
compound — the segment interface guarantees unique pixel indices anyway). -/
def scatterAdd (buf : Buf) (pix : List Nat) (vals : List ℚ) : Buf :=
  scatter buf (pix.zip (List.zipWith (fun q v => buf q + v) pix vals))

/-- Net change `scatterAdd` makes at index `p`. -/
def deltaOf (pix : List Nat) (vals : List ℚ) (p : Nat) : ℚ :=
  (lastPair (pix.zip vals) p).getD 0

theorem scatter_apply :
    ∀ (l : List (Nat × ℚ)) (buf : Buf) (p : Nat),
      scatter buf l p = (lastPair l p).getD (buf p) := by
  intro l
  induction l with
  | nil => intro buf p; rfl
  | cons x t ih =>
      intro buf p
      show scatter (upd buf x.1 x.2) t p = (lastPair (x :: t) p).getD (buf p)
      rw [ih, lastPair_cons]
      cases h : lastPair t p with
      | some v => rfl
      | none =>
          show upd buf x.1 x.2 p = (if x.1 = p then some x.2 else none).getD (buf p)
          by_cases hx : x.1 = p
          · rw [if_pos hx]
            show (if p = x.1 then x.2 else buf p) = x.2
            rw [if_pos hx.symm]
          · rw [if_neg hx]
            show (if p = x.1 then x.2 else buf p) = (none : Option ℚ).getD (buf p)
            rw [if_neg (fun e => hx e.symm)]
            rfl

theorem zip_gather (buf : Buf) :
    ∀ (pix : List Nat) (vals : List ℚ),
      pix.zip (List.zipWith (fun q v => buf q + v) pix vals)
        = (pix.zip vals).map (fun x => (x.1, buf x.1 + x.2)) := by
  intro pix
  induction pix with
  | nil => intro vals; rfl
  | cons q qt ih =>
      intro vals
      cases vals with
      | nil => rfl
      | cons v vt =>
          show (q, buf q + v) :: qt.zip (List.zipWith (fun q v => buf q + v) qt vt)
              = (q, buf q + v) :: ((qt.zip vt).map (fun x => (x.1, buf x.1 + x.2)))
          rw [ih vt]

theorem lastPair_map_shift (buf : Buf) (p : Nat) :
    ∀ l : List (Nat × ℚ),
      lastPair (l.map (fun x => (x.1, buf x.1 + x.2))) p
        = (lastPair l p).map (fun v => buf p + v) := by
  intro l
  induction l with
  | nil => rfl
  | cons x t ih =>
      rw [List.map_cons, lastPair_cons, lastPair_cons, ih]
      cases h : lastPair t p with
      | some v => rfl
      | none =>
          show (if x.1 = p then some (buf x.1 + x.2) else none)
              = Option.map (fun v => buf p + v) (if x.1 = p then some x.2 else none)
          by_cases hx : x.1 = p
          · rw [if_pos hx, if_pos hx, hx]
            rfl
          · rw [if_neg hx, if_neg hx]
            rfl

theorem scatterAdd_apply (buf : Buf) (pix : List Nat) (vals : List ℚ) (p : Nat) :
    scatterAdd buf pix vals p = buf p + deltaOf pix vals p := by
  unfold scatterAdd deltaOf
  rw [zip_gather, scatter_apply, lastPair_map_shift]
  cases h : lastPair (pix.zip vals) p with
  | none => show buf p = buf p + 0; rw [add_zero]
  | some v => rfl

theorem lastPair_zip_not_mem (q : Nat) :
    ∀ (pix : List Nat) (vals : List ℚ), q ∉ pix → lastPair (pix.zip vals) q = none := by
  intro pix
  induction pix with
  | nil => intro vals _; rfl
  | cons a t ih =>
      intro vals h
      cases vals with
      | nil => rfl
      | cons v vt =>
          have ha : ¬(a = q) := fun e => h (e ▸ List.mem_cons_self a t)
          have ht : q ∉ t := fun e => h (List.mem_cons_of_mem a e)
          have hz : (a :: t).zip (v :: vt) = (a, v) :: t.zip vt := rfl
          rw [hz, lastPair_cons, ih vt ht]
          show (if a = q then some v else none) = none
          rw [if_neg ha]

theorem getD_mem_of_lt {α : Type} (d : α) :
    ∀ (l : List α) (j : Nat), j < l.length → l.getD j d ∈ l := by
  intro l
  induction l with
  | nil => intro j h; simp at h
  | cons a t ih =>
      intro j h
      cases j with
      | zero => show a ∈ a :: t; exact List.mem_cons_self a t
      | succ n =>
          have hn : n < t.length := by simpa using h
          show t.getD n d ∈ a :: t
          exact List.mem_cons_of_mem a (ih n hn)

theorem deltaOf_nodup :
    ∀ (pix : List Nat) (vals : List ℚ) (j : Nat), pix.Nodup → vals.length = pix.length →
      j < pix.length → deltaOf pix vals (pix.getD j 0) = vals.getD j 0 := by
  intro pix
  induction pix with
  | nil => intro vals j _ _ hj; simp at hj
  | cons q qt ih =>
      intro vals j hnd hlen hj
      cases vals with
      | nil => simp at hlen
      | cons v vt =>
          simp only [List.length_cons, Nat.succ_inj] at hlen
          have hq : q ∉ qt := (List.nodup_cons.mp hnd).1
          have hnd2 : qt.Nodup := (List.nodup_cons.mp hnd).2
          have hz : (q :: qt).zip (v :: vt) = (q, v) :: qt.zip vt := rfl
          cases j with
          | zero =>
              show deltaOf (q :: qt) (v :: vt) q = v
              unfold deltaOf
              rw [hz, lastPair_cons, lastPair_zip_not_mem q qt vt hq]
              show (if q = q then some v else none).getD 0 = v
              rw [if_pos rfl]
              rfl
          | succ n =>
              have hn : n < qt.length := by simpa using hj
              have hp : qt.getD n 0 ∈ qt := getD_mem_of_lt 0 qt n hn
              have hqp : ¬(q = qt.getD n 0) := fun e => hq (e ▸ hp)
              have hrec := ih vt n hnd2 hlen hn
              show deltaOf (q :: qt) (v :: vt) (qt.getD n 0) = vt.getD n 0
              unfold deltaOf at hrec ⊢
              rw [hz, lastPair_cons]
              cases h : lastPair (qt.zip vt) (qt.getD n 0) with
              | some w => rw [h] at hrec; exact hrec
              | none =>
                  rw [h] at hrec
                  show (if q = qt.getD n 0 then some v else none).getD 0 = vt.getD n 0
                  rw [if_neg hqp]
                  exact hrec

theorem scatterAdd_nodup_getD (buf : Buf) (pix : List Nat) (vals : List ℚ) (j : Nat)
    (hnd : pix.Nodup) (hlen : vals.length = pix.length) (hj : j < pix.length) :
    scatterAdd buf pix vals (pix.getD j 0) = buf (pix.getD j 0) + vals.getD j 0 := by
  rw [scatterAdd_apply, deltaOf_nodup pix vals j hnd hlen hj]

theorem map_getD {α β : Type} (f : α → β) (d : α) (d2 : β) :
    ∀ (l : List α) (j : Nat), j < l.length → (l.map f).getD j d2 = f (l.getD j d) := by
  intro l
  induction l with
  | nil => intro j h; simp at h
  | cons a t ih =>
      intro j h
      cases j with
      | zero => rfl
      | succ n =>
          have hn : n < t.length := by simpa using h
          show (t.map f).getD n d2 = f (t.getD n d)
          exact ih n hn

theorem zipWith_getD {α β γ : Type} (f : α → β → γ) (da : α) (db : β) (dc : γ) :
    ∀ (as : List α) (bs : List β) (j : Nat), j < as.length → j < bs.length →
      (List.zipWith f as bs).getD j dc = f (as.getD j da) (bs.getD j db) := by
  intro as
  induction as with
  | nil => intro bs j h _; simp at h
  | cons a t ih =>
      intro bs j ha hb
      cases bs with
      | nil => simp at hb
      | cons b bt =>
          cases j with
          | zero => rfl
          | succ n =>
              have hna : n < t.length := by simpa using ha
              have hnb : n < bt.length := by simpa using hb
              show (List.zipWith f t bt).getD n dc = f (t.getD n da) (bt.getD n db)
              exact ih bt n hna hnb

-- ---------------------------------------------------------------------------
-- `Coadder.add_file`: accumulation of one segment (C3, C7)
-- ---------------------------------------------------------------------------

/-- `Coadder.add_file` (calibrate_zodi_time.py lines 217-249): mask the orbit
columns, skip the segment unless some (unmasked) uncertainty is nonzero and the
gain is nonzero, then calibrate, subtract the template, clamp negative
residuals to `0.0`, and accumulate `zs/cal_unc²` and `1/cal_unc²` into the
pixel-indexed buffers with `np.divide(..., where=cal_uncs != 0, out=zeros)`. -/
def add_file (num den : Buf) (gain offset : ℚ) (ob : OrbitData)
    (masked : Nat → Bool) : Buf × Buf :=
  let orbit_data_masked := maskedList masked ob.data ob.pix
  let orbit_uncs_masked := maskedList masked ob.uncs ob.pix
  let pixel_inds_masked := maskedList masked ob.pix ob.pix
  if (∃ u ∈ ob.uncs, u ≠ 0) ∧ gain ≠ 0 then
    let cal_data := orbit_data_masked.map (fun d => (d - offset) / gain)
    let cal_uncs := orbit_uncs_masked.map (fun u => u / |gain|)
    let zodi_data_masked := maskedList masked ob.zodi ob.pix
    let zs_raw := List.zipWith (fun c z => c - z) cal_data zodi_data_masked
    let zs_data := zs_raw.map (fun v => if v < 0 then 0 else v)
    let num_add := List.zipWith (fun v u => if u = 0 then 0 else v / u ^ 2) zs_data cal_uncs
    let den_add := cal_uncs.map (fun u => if u = 0 then 0 else 1 / u ^ 2)
    (scatterAdd num pixel_inds_masked num_add, scatterAdd den pixel_inds_masked den_add)
  else (num, den)

theorem clamp_eq_max (v : ℚ) : (if v < 0 then 0 else v) = max v 0 := by
  rcases lt_or_le v 0 with h | h
  · rw [if_pos h, max_eq_right h.le]
  · rw [if_neg (not_lt.mpr h), max_eq_left h]

/-- C3: for a segment not skipped by the accumulation skip rule, the `j`-th
surviving (masked) sample — raw value `d`, raw uncertainty `u`, template value
`z`, pixel `p` — adds exactly
`max((d − offset)/gain − z, 0) / (u/|gain|)²` to the numerator buffer at `p`
and `1 / (u/|gain|)²` to the denominator buffer at `p`, and contributes
exactly zero to both when `u = 0` (the `np.divide` guard) rather than
faulting.  Pixel indices of one segment are unique per the segment-source
interface contract. -/
theorem c3_per_sample_accumulation (num den : Buf) (gain offset : ℚ) (ob : OrbitData)
    (masked : Nat → Bool) (j : Nat)
    (hg : gain ≠ 0) (hu : ∃ u ∈ ob.uncs, u ≠ 0) (hnd : ob.pix.Nodup)
    (hld : ob.data.length = ob.pix.length) (hlu : ob.uncs.length = ob.pix.length)
    (hlz : ob.zodi.length = ob.pix.length)
    (hj : j < (maskedList masked ob.pix ob.pix).length) :
    (add_file num den gain offset ob masked).1 ((maskedList masked ob.pix ob.pix).getD j 0)
      = num ((maskedList masked ob.pix ob.pix).getD j 0)
        + (if (maskedList masked ob.uncs ob.pix).getD j 0 = 0 then 0
           else max (((maskedList masked ob.data ob.pix).getD j 0 - offset) / gain
                      - (maskedList masked ob.zodi ob.pix).getD j 0) 0
                / ((maskedList masked ob.uncs ob.pix).getD j 0 / |gain|) ^ 2)
    ∧ (add_file num den gain offset ob masked).2 ((maskedList masked ob.pix ob.pix).getD j 0)
      = den ((maskedList masked ob.pix ob.pix).getD j 0)
        + (if (maskedList masked ob.uncs ob.pix).getD j 0 = 0 then 0
           else 1 / ((maskedList masked ob.uncs ob.pix).getD j 0 / |gain|) ^ 2) := by
  have habs : |gain| ≠ 0 := abs_ne_zero.mpr hg
  have hiff : ((maskedList masked ob.uncs ob.pix).getD j 0 / |gain| = 0)
      ↔ ((maskedList masked ob.uncs ob.pix).getD j 0 = 0) := by
    rw [div_eq_zero_iff]
    exact ⟨fun h => h.resolve_right habs, Or.inl⟩
  have hndP : (maskedList masked ob.pix ob.pix).Nodup := by
    rw [maskedList_self masked ob.pix]
    exact hnd.filter _
  have hLp : (maskedList masked ob.pix ob.pix).length
      = (ob.pix.filter (fun p => !masked p)).length := by
    rw [maskedList_self masked ob.pix]
  have hLd : (maskedList masked ob.data ob.pix).length
      = (maskedList masked ob.pix ob.pix).length := by
    rw [maskedList_length masked ob.data ob.pix hld, hLp]
  have hLu : (maskedList masked ob.uncs ob.pix).length
      = (maskedList masked ob.pix ob.pix).length := by
    rw [maskedList_length masked ob.uncs ob.pix hlu, hLp]
  have hLz : (maskedList masked ob.zodi ob.pix).length
      = (maskedList masked ob.pix ob.pix).length := by
    rw [maskedList_length masked ob.zodi ob.pix hlz, hLp]
  have hjd : j < (maskedList masked ob.data ob.pix).length := by rw [hLd]; exact hj
  have hju : j < (maskedList masked ob.uncs ob.pix).length := by rw [hLu]; exact hj
  have hjz : j < (maskedList masked ob.zodi ob.pix).length := by rw [hLz]; exact hj
  have hjcd : j < ((maskedList masked ob.data ob.pix).map
      (fun d => (d - offset) / gain)).length := by
    rw [List.length_map]; exact hjd
  have hjcu : j < ((maskedList masked ob.uncs ob.pix).map
      (fun u => u / |gain|)).length := by
    rw [List.length_map]; exact hju
  have hjzr : j < (List.zipWith (fun c z => c - z)
      ((maskedList masked ob.data ob.pix).map (fun d => (d - offset) / gain))
      (maskedList masked ob.zodi ob.pix)).length := by
    rw [List.length_zipWith]
    omega
  have hjzs : j < ((List.zipWith (fun c z => c - z)
      ((maskedList masked ob.data ob.pix).map (fun d => (d - offset) / gain))
      (maskedList masked ob.zodi ob.pix)).map (fun v => if v < 0 then 0 else v)).length := by
    rw [List.length_map]; exact hjzr
  have hlenNum : (List.zipWith (fun v u => if u = 0 then 0 else v / u ^ 2)
      ((List.zipWith (fun c z => c - z)
          ((maskedList masked ob.data ob.pix).map (fun d => (d - offset) / gain))
          (maskedList masked ob.zodi ob.pix)).map (fun v => if v < 0 then 0 else v))
      ((maskedList masked ob.uncs ob.pix).map (fun u => u / |gain|))).length
      = (maskedList masked ob.pix ob.pix).length := by
    rw [List.length_zipWith, List.length_map, List.length_zipWith,
        List.length_map, List.length_map]
    omega
  have hlenDen : (((maskedList masked ob.uncs ob.pix).map
      (fun u => u / |gain|)).map (fun u => if u = 0 then 0 else 1 / u ^ 2)).length
      = (maskedList masked ob.pix ob.pix).length := by
    rw [List.length_map, List.length_map]
    omega
  have e1 := zipWith_getD (fun v u => if u = 0 then (0 : ℚ) else v / u ^ 2) 0 0 0
    ((List.zipWith (fun c z => c - z)
        ((maskedList masked ob.data ob.pix).map (fun d => (d - offset) / gain))
        (maskedList masked ob.zodi ob.pix)).map (fun v => if v < 0 then 0 else v))
    ((maskedList masked ob.uncs ob.pix).map (fun u => u / |gain|)) j hjzs hjcu
  have e2 := map_getD (fun v : ℚ => if v < 0 then (0 : ℚ) else v) 0 0
    (List.zipWith (fun c z => c - z)
        ((maskedList masked ob.data ob.pix).map (fun d => (d - offset) / gain))
        (maskedList masked ob.zodi ob.pix)) j hjzr
  have e3 := zipWith_getD (fun c z : ℚ => c - z) 0 0 0
    ((maskedList masked ob.data ob.pix).map (fun d => (d - offset) / gain))
    (maskedList masked ob.zodi ob.pix) j hjcd hjz
  have e4 := map_getD (fun d : ℚ => (d - offset) / gain) 0 0
    (maskedList masked ob.data ob.pix) j hjd
  have e5 := map_getD (fun u : ℚ => u / |gain|) 0 0
    (maskedList masked ob.uncs ob.pix) j hju
  have e6 := map_getD (fun u : ℚ => if u = 0 then (0 : ℚ) else 1 / u ^ 2) 0 0
    ((maskedList masked ob.uncs ob.pix).map (fun u => u / |gain|)) j hjcu
  simp only [add_file]
  rw [if_pos (show (∃ u ∈ ob.uncs, u ≠ 0) ∧ gain ≠ 0 from ⟨hu, hg⟩)]
  constructor
  · show scatterAdd num (maskedList masked ob.pix ob.pix) _ _ = _
    rw [scatterAdd_nodup_getD num (maskedList masked ob.pix ob.pix) _ j hndP hlenNum hj]
    simp only [e1, e2, e3, e4, e5]
    rw [clamp_eq_max]
    simp only [hiff]
  · show scatterAdd den (maskedList masked ob.pix ob.pix) _ _ = _
    rw [scatterAdd_nodup_getD den (maskedList masked ob.pix ob.pix) _ j hndP hlenDen hj]
    simp only [e6, e5, hiff]

/-- Witness for `c3_per_sample_accumulation`: two unmasked samples with unique
pixels; sample 0 has `d = 5, u = 1, z = 2, p = 0` under `gain = 1, offset = 0`. -/
theorem c3_witness :
    (add_file zeroBuf zeroBuf 1 0 ⟨[5, 1], [1, 0], [0, 1], [2, 0]⟩ (fun _ => false)).1
        ((maskedList (fun _ => false) ([0, 1] : List Nat) [0, 1]).getD 0 0)
      = zeroBuf ((maskedList (fun _ => false) ([0, 1] : List Nat) [0, 1]).getD 0 0)
        + (if (maskedList (fun _ => false) ([1, 0] : List ℚ) [0, 1]).getD 0 0 = 0 then 0
           else max (((maskedList (fun _ => false) ([5, 1] : List ℚ) [0, 1]).getD 0 0 - 0) / 1
                      - (maskedList (fun _ => false) ([2, 0] : List ℚ) [0, 1]).getD 0 0) 0
                / ((maskedList (fun _ => false) ([1, 0] : List ℚ) [0, 1]).getD 0 0 / |(1 : ℚ)|) ^ 2)
    ∧ (add_file zeroBuf zeroBuf 1 0 ⟨[5, 1], [1, 0], [0, 1], [2, 0]⟩ (fun _ => false)).2
        ((maskedList (fun _ => false) ([0, 1] : List Nat) [0, 1]).getD 0 0)
      = zeroBuf ((maskedList (fun _ => false) ([0, 1] : List Nat) [0, 1]).getD 0 0)
        + (if (maskedList (fun _ => false) ([1, 0] : List ℚ) [0, 1]).getD 0 0 = 0 then 0
           else 1 / ((maskedList (fun _ => false) ([1, 0] : List ℚ) [0, 1]).getD 0 0 / |(1 : ℚ)|) ^ 2) :=
  c3_per_sample_accumulation zeroBuf zeroBuf 1 0 ⟨[5, 1], [1, 0], [0, 1], [2, 0]⟩
    (fun _ => false) 0 (by decide) (by decide) (by decide) (by decide) (by decide)
    (by decide) (by decide)

/-- C7: a segment whose gain is exactly zero, or all of whose raw
uncertainties are zero, leaves both accumulation buffers unchanged at every
pixel. -/
theorem c7_skip_rule (num den : Buf) (gain offset : ℚ) (ob : OrbitData)
    (masked : Nat → Bool)
    (h : gain = 0 ∨ ∀ u ∈ ob.uncs, u = 0) (p : Nat) :
    (add_file num den gain offset ob masked).1 p = num p ∧
    (add_file num den gain offset ob masked).2 p = den p := by
  have hcond : ¬((∃ u ∈ ob.uncs, u ≠ 0) ∧ gain ≠ 0) := by
    rcases h with h | h
    · exact fun hc => hc.2 h
    · exact fun hc => by
        obtain ⟨u, hu, hne⟩ := hc.1
        exact hne (h u hu)
  simp only [add_file]
  rw [if_neg hcond]
  exact ⟨rfl, rfl⟩

/-- Witness for `c7_skip_rule`: a zero-gain segment changes nothing at pixel 0. -/
theorem c7_witness :
    ((0 : ℚ) = 0 ∨ ∀ u ∈ ([1] : List ℚ), u = 0) ∧
    ((add_file zeroBuf zeroBuf 0 0 ⟨[1], [1], [0], [0]⟩ (fun _ => false)).1 0 = zeroBuf 0 ∧
     (add_file zeroBuf zeroBuf 0 0 ⟨[1], [1], [0], [0]⟩ (fun _ => false)).2 0 = zeroBuf 0) :=
  ⟨Or.inl rfl,
   c7_skip_rule zeroBuf zeroBuf 0 0 ⟨[1], [1], [0], [0]⟩ (fun _ => false) (Or.inl rfl) 0⟩

-- ---------------------------------------------------------------------------
-- C1: the outer iteration loop of `Coadder.run`
-- ---------------------------------------------------------------------------

/-- The Coadder state touched by one outer iteration: the accumulation buffers
(allocated zero-filled once, in `Coadder.__init__`, lines 23-24) and the
current iteration's (fresh) map and uncertainty map. -/
structure CoadderState where
  numerator : Buf
  denominator : Buf
  mapdata : Buf
  uncdata : Buf

/-- State at `Coadder.__init__`: all buffers zero-filled. -/
def coaddStart : CoadderState := ⟨zeroBuf, zeroBuf, zeroBuf, zeroBuf⟩

/-- The `for j in range(num_orbits): self.add_file(j, gains[j], offsets[j])`
loop of `Coadder.run` (lines 77-79); `ps j` is the fitted `(gain, offset)` of
orbit `j` for the current iteration. -/
def addAll (masked : Nat → Bool) (ps : Nat → ℚ × ℚ) :
    List OrbitData → Nat → Buf → Buf → Buf × Buf
  | [], _, num, den => (num, den)
  | ob :: rest, j, num, den =>
      addAll masked ps rest (j + 1)
        (add_file num den (ps j).1 (ps j).2 ob masked).1
        (add_file num den (ps j).1 (ps j).2 ob masked).2

/-- One outer iteration of `Coadder.run` (lines 59-92), restricted to the
accumulation/normalization state: add every orbit into the (carried-over)
buffers, then normalize into this iteration's fresh map.  The fitting phase
does not touch the buffers; its per-orbit results enter through `ps`.
Nothing in the loop body ever resets `numerator`/`denominator`. -/
def coaddStep (masked : Nat → Bool) (orbits : List OrbitData) (ps : Nat → ℚ × ℚ)
    (st : CoadderState) : CoadderState :=
  let bufs := addAll masked ps orbits 0 st.numerator st.denominator
  { numerator := bufs.1, denominator := bufs.2,
    mapdata := (normalize_map bufs.1 bufs.2).1,
    uncdata := (normalize_map bufs.1 bufs.2).2 }

/-- The state after `k` complete outer iterations of `Coadder.run`
(equivalently: at the start of outer iteration `k`); `sched it j` is the
`(gain, offset)` the fitting phase of iteration `it` stores for orbit `j`. -/
def coaddRun (masked : Nat → Bool) (orbits : List OrbitData)
    (sched : Nat → Nat → ℚ × ℚ) : Nat → CoadderState
  | 0 => coaddStart
  | k + 1 => coaddStep masked orbits (sched k) (coaddRun masked orbits sched k)

/-- The contribution a single iteration's accumulation phase would make to
zero-filled buffers. -/
def iterBufs (masked : Nat → Bool) (orbits : List OrbitData) (ps : Nat → ℚ × ℚ) :
    Buf × Buf :=
  addAll masked ps orbits 0 zeroBuf zeroBuf

theorem add_file_additive (num den : Buf) (gain offset : ℚ) (ob : OrbitData)
    (masked : Nat → Bool) (p : Nat) :
    (add_file num den gain offset ob masked).1 p
      = num p + (add_file zeroBuf zeroBuf gain offset ob masked).1 p ∧
    (add_file num den gain offset ob masked).2 p
      = den p + (add_file zeroBuf zeroBuf gain offset ob masked).2 p := by
  by_cases hc : (∃ u ∈ ob.uncs, u ≠ 0) ∧ gain ≠ 0
  · simp only [add_file]
    rw [if_pos hc, if_pos hc]
    constructor
    · show scatterAdd num _ _ p = num p + scatterAdd zeroBuf _ _ p
      rw [scatterAdd_apply, scatterAdd_apply]
      show num p + _ = num p + ((0 : ℚ) + _)
      rw [zero_add]
    · show scatterAdd den _ _ p = den p + scatterAdd zeroBuf _ _ p
      rw [scatterAdd_apply, scatterAdd_apply]
      show den p + _ = den p + ((0 : ℚ) + _)
      rw [zero_add]
  · simp only [add_file]
    rw [if_neg hc, if_neg hc]
    constructor
    · show num p = num p + (0 : ℚ)
      rw [add_zero]
    · show den p = den p + (0 : ℚ)
      rw [add_zero]

theorem addAll_additive (masked : Nat → Bool) (ps : Nat → ℚ × ℚ) :
    ∀ (l : List OrbitData) (j : Nat) (num den : Buf) (p : Nat),
      (addAll masked ps l j num den).1 p
        = num p + (addAll masked ps l j zeroBuf zeroBuf).1 p ∧
      (addAll masked ps l j num den).2 p
        = den p + (addAll masked ps l j zeroBuf zeroBuf).2 p := by
  intro l
  induction l with
  | nil =>
      intro j num den p
      constructor
      · show num p = num p + (0 : ℚ); rw [add_zero]
      · show den p = den p + (0 : ℚ); rw [add_zero]
  | cons ob rest ih =>
      intro j num den p
      have hX := ih (j + 1) (add_file num den (ps j).1 (ps j).2 ob masked).1
        (add_file num den (ps j).1 (ps j).2 ob masked).2 p
      have hY := ih (j + 1) (add_file zeroBuf zeroBuf (ps j).1 (ps j).2 ob masked).1
        (add_file zeroBuf zeroBuf (ps j).1 (ps j).2 ob masked).2 p
      have hA := add_file_additive num den (ps j).1 (ps j).2 ob masked p
      constructor
      · show (addAll masked ps rest (j + 1)
              (add_file num den (ps j).1 (ps j).2 ob masked).1
              (add_file num den (ps j).1 (ps j).2 ob masked).2).1 p
            = num p + (addAll masked ps rest (j + 1)
              (add_file zeroBuf zeroBuf (ps j).1 (ps j).2 ob masked).1
              (add_file zeroBuf zeroBuf (ps j).1 (ps j).2 ob masked).2).1 p
        rw [hX.1, hY.1, hA.1, add_assoc]
      · show (addAll masked ps rest (j + 1)
              (add_file num den (ps j).1 (ps j).2 ob masked).1
              (add_file num den (ps j).1 (ps j).2 ob masked).2).2 p
            = den p + (addAll masked ps rest (j + 1)
              (add_file zeroBuf zeroBuf (ps j).1 (ps j).2 ob masked).1
              (add_file zeroBuf zeroBuf (ps j).1 (ps j).2 ob masked).2).2 p
        rw [hX.2, hY.2, hA.2, add_assoc]

theorem coaddRun_buffers (masked : Nat → Bool) (orbits : List OrbitData)
    (sched : Nat → Nat → ℚ × ℚ) :
    ∀ (k : Nat) (p : Nat),
      (coaddRun masked orbits sched k).numerator p
          = ∑ j ∈ Finset.range k, (iterBufs masked orbits (sched j)).1 p
      ∧ (coaddRun masked orbits sched k).denominator p
          = ∑ j ∈ Finset.range k, (iterBufs masked orbits (sched j)).2 p := by
  intro k
  induction k with
  | zero =>
      intro p
      constructor
      · show (0 : ℚ) = _; rw [Finset.range_zero, Finset.sum_empty]
      · show (0 : ℚ) = _; rw [Finset.range_zero, Finset.sum_empty]
  | succ n ih =>
      intro p
      constructor
      · show (addAll masked (sched n) orbits 0
              (coaddRun masked orbits sched n).numerator
              (coaddRun masked orbits sched n).denominator).1 p = _
        rw [(addAll_additive masked (sched n) orbits 0 _ _ p).1, (ih p).1,
            Finset.sum_range_succ]
        rfl
      · show (addAll masked (sched n) orbits 0
              (coaddRun masked orbits sched n).numerator
              (coaddRun masked orbits sched n).denominator).2 p = _
        rw [(addAll_additive masked (sched n) orbits 0 _ _ p).2, (ih p).2,
            Finset.sum_range_succ]
        rfl

/-- C1 counterexample: the buffers are *not* zero-filled at the start of every
outer iteration.  One orbit (one unmasked sample: raw 2, uncertainty 1,
pixel 0, template 0), every iteration fitting `(gain, offset) = (1, 0)`: at
the start of outer iteration 1 the denominator buffer still holds the `1`
accumulated by iteration 0. -/
theorem c1_counterexample :
    (coaddRun (fun _ => false) [⟨[2], [1], [0], [0]⟩] (fun _ _ => (1, 0)) 1).denominator 0
      ≠ 0 := by
  have h : (coaddRun (fun _ => false) [⟨[2], [1], [0], [0]⟩] (fun _ _ => (1, 0)) 1).denominator 0
      = 1 := by
    show (add_file zeroBuf zeroBuf 1 0 ⟨[2], [1], [0], [0]⟩ (fun _ => false)).2 0 = 1
    simp only [add_file]
    rw [if_pos (show (∃ u ∈ ([1] : List ℚ), u ≠ 0) ∧ (1 : ℚ) ≠ 0 by
      refine ⟨⟨1, List.mem_singleton_self 1, ?_⟩, ?_⟩ <;> norm_num)]
    show scatterAdd zeroBuf _ _ 0 = 1
    rw [scatterAdd_apply]
    simp only [maskedList, List.map_cons, List.map_nil]
    norm_num [deltaOf, lastPair, zeroBuf]
  rw [h]
  norm_num

/-- C1 (amended): the accumulation buffers are zero-filled only once, at
`Coadder.__init__`, and are never reset between outer iterations; at the
start of outer iteration `k` they hold the pixelwise sums of all previous
iterations' contributions, and the map normalized at the end of iteration `k`
is the inverse-variance-weighted mean over the contributions of iterations
`0..k` combined — not of iteration `k` alone. -/
theorem c1_amended (masked : Nat → Bool) (orbits : List OrbitData)
    (sched : Nat → Nat → ℚ × ℚ) (k p : Nat) :
    (coaddRun masked orbits sched k).numerator p
        = ∑ j ∈ Finset.range k, (iterBufs masked orbits (sched j)).1 p
    ∧ (coaddRun masked orbits sched k).denominator p
        = ∑ j ∈ Finset.range k, (iterBufs masked orbits (sched j)).2 p
    ∧ (coaddRun masked orbits sched (k + 1)).mapdata p
        = (if (∑ j ∈ Finset.range (k + 1), (iterBufs masked orbits (sched j)).2 p) = 0
           then 0
           else (∑ j ∈ Finset.range (k + 1), (iterBufs masked orbits (sched j)).1 p)
              / (∑ j ∈ Finset.range (k + 1), (iterBufs masked orbits (sched j)).2 p)) := by
  refine ⟨(coaddRun_buffers masked orbits sched k p).1,
          (coaddRun_buffers masked orbits sched k p).2, ?_⟩
  have h := coaddRun_buffers masked orbits sched (k + 1) p
  show (if (coaddRun masked orbits sched (k + 1)).denominator p = 0 then 0
        else (coaddRun masked orbits sched (k + 1)).numerator p
            / (coaddRun masked orbits sched (k + 1)).denominator p) = _
  rw [h.1, h.2]

-- ---------------------------------------------------------------------------
-- C8: division-by-zero guards
-- ---------------------------------------------------------------------------

/-- A division as the source performs it at a given site: `none` marks a zero
divisor reaching an *unguarded* `/` (numpy produces `inf`/`nan` there with a
runtime warning — in any case not the zero fallback the specification
asserts). -/
def cdiv (a b : ℚ) : Option ℚ := if b = 0 then none else some (a / b)

/-- Option-valued elementwise traversal (fails if any element fails). -/
def omapM {α β : Type} (f : α → Option β) : List α → Option (List β)
  | [] => some []
  | a :: t => (f a).bind fun b => (omapM f t).map fun bs => b :: bs

theorem omapM_some {α β : Type} (f : α → β) :
    ∀ l : List α, omapM (fun a => some (f a)) l = some (l.map f) := by
  intro l
  induction l with
  | nil => rfl
  | cons a t ih => simp [omapM, ih]

/-- `IterativeFitter.adjust_data` (lines 390-393) with its division
`(data - offset) / gain` instrumented: the source guards it nowhere, so a
fitted gain of exactly zero reaching the refinement's adjust step divides by
zero. -/
def adjust_data_checked (gain offset : ℚ) (data zodi : List ℚ) : Option (List ℚ) :=
  omapM (fun dz => (cdiv (dz.1 - offset) gain).map fun c => dz.1 - gain * (c - dz.2))
    (data.zip zodi)

/-- `Coadder.add_file` (lines 217-249) with its calibration divisions
`(orbit_data - offset)/gain` and `orbit_uncs/|gain|` instrumented; they are
only ever executed under the `gain != 0.0` branch test, and the accumulation
divisions use `np.divide(..., where=..., out=zeros)` (an explicit zero
fallback, kept as the `if u = 0` terms). -/
def add_file_checked (num den : Buf) (gain offset : ℚ) (ob : OrbitData)
    (masked : Nat → Bool) : Option (Buf × Buf) :=
  let orbit_data_masked := maskedList masked ob.data ob.pix
  let orbit_uncs_masked := maskedList masked ob.uncs ob.pix
  let pixel_inds_masked := maskedList masked ob.pix ob.pix
  if (∃ u ∈ ob.uncs, u ≠ 0) ∧ gain ≠ 0 then
    (omapM (fun d => cdiv (d - offset) gain) orbit_data_masked).bind fun cal_data =>
    (omapM (fun u => cdiv u |gain|) orbit_uncs_masked).bind fun cal_uncs =>
    let zodi_data_masked := maskedList masked ob.zodi ob.pix
    let zs_data := (List.zipWith (fun c z => c - z) cal_data zodi_data_masked).map
      (fun v => if v < 0 then 0 else v)
    let num_add := List.zipWith (fun v u => if u = 0 then 0 else v / u ^ 2) zs_data cal_uncs
    let den_add := cal_uncs.map (fun u => if u = 0 then 0 else 1 / u ^ 2)
    some (scatterAdd num pixel_inds_masked num_add, scatterAdd den pixel_inds_masked den_add)
  else some (num, den)

/-- `Coadder.normalize` (lines 321-323) with its divisions instrumented: both
are `np.divide(..., where=denominator != 0, out=zeros)`, so the zero case
never reaches the division. -/
def normalize_checked (num den : Buf) (p : Nat) : Option (ℚ × ℚ) :=
  if den p = 0 then some (0, 0)
  else (cdiv (num p) (den p)).bind fun a => (cdiv 1 (den p)).map fun b => (a, b)

/-- `Coadder.weighted_mean_filter` (lines 306-318, the clamped-boundary
variant) with its divisions instrumented: `weights_window /= np.sum(...)` and
the division inside `np.average` are unguarded. -/
def weighted_mean_filter_checked (array weights : List ℚ) (size : Nat) :
    Option (List ℚ) :=
  let step := size / 2
  omapM (fun p =>
      let lo := p - step
      let hi := min array.length (p + step)
      let window := (array.drop lo).take (hi - lo)
      let weights_window := (weights.drop lo).take (hi - lo)
      (omapM (fun w => cdiv w weights_window.sum) weights_window).bind fun nw =>
      cdiv (List.zipWith (fun a w => a * w) window nw).sum nw.sum)
    (List.range array.length)

/-- C8 counterexample: not every division in the core computation is guarded.
The refinement's adjust step with fitted gain `0` on one sample divides by
zero, and the moving-average filter on an all-zero weight window divides by
zero; neither has a zero-fallback. -/
theorem c8_counterexample :
    adjust_data_checked 0 0 [1] [1] = none ∧
    weighted_mean_filter_checked [1, 1] [0, 0] 2 = none := by
  constructor
  · simp [adjust_data_checked, omapM, cdiv]
  · have hr : List.range ([1, 1] : List ℚ).length = [0, 1] := rfl
    simp [weighted_mean_filter_checked, hr, omapM, cdiv]

/-- C8 (amended): the divisions of the accumulation step (`add_file`) are
guarded — by the `gain != 0` branch test and the `np.divide` `where=` zero
fallback — and never fault, and likewise normalization's divisions; but the
refinement's `adjust_data` divides by the fitted gain unguarded, faulting
exactly when that gain is `0` and the data nonempty, and the windowed
moving-average filter divides by the window weight sum unguarded, faulting
e.g. on an all-zero weight window. -/
theorem c8_amended :
    (∀ (num den : Buf) (gain offset : ℚ) (ob : OrbitData) (masked : Nat → Bool),
        add_file_checked num den gain offset ob masked
          = some (add_file num den gain offset ob masked)) ∧
    (∀ (num den : Buf) (p : Nat),
        normalize_checked num den p
          = some ((normalize_map num den).1 p, (normalize_map num den).2 p)) ∧
    (∀ (g o : ℚ) (d z : List ℚ), d.length = z.length →
        (adjust_data_checked g o d z = none ↔ g = 0 ∧ d ≠ [])) ∧
    weighted_mean_filter_checked [1, 1] [0, 0] 2 = none := by
  refine ⟨?_, ?_, ?_, ?_⟩
  · intro num den gain offset ob masked
    by_cases hc : (∃ u ∈ ob.uncs, u ≠ 0) ∧ gain ≠ 0
    · have habs : |gain| ≠ 0 := abs_ne_zero.mpr hc.2
      have h1 : (fun d : ℚ => cdiv (d - offset) gain)
          = fun d : ℚ => some ((d - offset) / gain) := by
        funext d
        rw [cdiv, if_neg hc.2]
      have h2 : (fun u : ℚ => cdiv u |gain|)
          = fun u : ℚ => some (u / |gain|) := by
        funext u
        rw [cdiv, if_neg habs]
      simp only [add_file_checked, add_file, if_pos hc, h1, h2, omapM_some]
      rfl
    · simp only [add_file_checked, add_file, if_neg hc]
  · intro num den p
    by_cases h : den p = 0
    · simp [normalize_checked, normalize_map, h]
    · simp [normalize_checked, normalize_map, h, cdiv]
  · intro g o d z hlen
    by_cases hg : g = 0
    · cases d with
      | nil => simp [adjust_data_checked, omapM]
      | cons a t =>
          cases z with
          | nil => simp at hlen
          | cons b bt =>
              have hz : (a :: t).zip (b :: bt) = (a, b) :: t.zip bt := rfl
              simp [adjust_data_checked, hz, omapM, cdiv, hg]
    · have hfun : (fun dz : ℚ × ℚ => (cdiv (dz.1 - o) g).map fun c => dz.1 - g * (c - dz.2))
          = fun dz : ℚ × ℚ => some (dz.1 - g * ((dz.1 - o) / g - dz.2)) := by
        funext dz
        rw [cdiv, if_neg hg]
        rfl
      simp [adjust_data_checked, hfun, omapM_some, hg]
  · have hr : List.range ([1, 1] : List ℚ).length = [0, 1] := rfl
    simp [weighted_mean_filter_checked, hr, omapM, cdiv]

/-- Witness for `c8_amended` (its third conjunct carries hypotheses):
with nonzero gain `1` on one sample the adjust step does not fault. -/
theorem c8_amended_witness :
    adjust_data_checked 1 0 [2] [3] = none ↔ (1 : ℚ) = 0 ∧ ([2] : List ℚ) ≠ [] :=
  c8_amended.2.2.1 1 0 [2] [3] (by decide)
